import Mathlib

/-!
# Verification of the mozart music engine (mozart-core)

Shallow embedding of the `mozart-core` Rust crate and proofs about it.
Machine integers of the source are modelled as `Nat`/`Int` (the source keeps
the relevant values far from the wrap-around boundaries on every code path
exercised here); Rust `Result` is modelled as `Except MozartError`.
-/

namespace Mozart

/-- Error enum of `error.rs` (`MozartError`).  The serde-specific
`SerializationError` payload is modelled as its message string. -/
inductive MozartError where
  | InvalidPitch (msg : String)
  | InvalidDuration (msg : String)
  | InvalidTimeSignature (numerator denominator : Nat)
  | InvalidScale (msg : String)
  | TranspositionError (msg : String)
  | ParseError (msg : String)
  | FileError (msg : String)
  | MidiError (msg : String)
  | SerializationError (msg : String)
  deriving DecidableEq, Repr

deriving instance DecidableEq for Except

/-- Rust `str::trim`: strip leading and trailing whitespace (the source's
Unicode whitespace is modelled by `Char.isWhitespace`). -/
def strTrim (s : String) : String :=
  String.mk (((s.data.dropWhile Char.isWhitespace).reverse.dropWhile Char.isWhitespace).reverse)

/-- Rust `str::to_uppercase`, character-wise (`Char.toUpper`; the strings
compared in this crate are ASCII plus the accidentals `♯`/`♭`, which are
fixed points of both uppercasing functions). -/
def strUpper (s : String) : String := String.mk (s.data.map Char.toUpper)

/-- Rust `str::to_lowercase`, character-wise. -/
def strLower (s : String) : String := String.mk (s.data.map Char.toLower)

/-- Rust `str::is_empty`. -/
def strIsEmpty (s : String) : Bool := s.data.isEmpty

/-- Rust `str::split_whitespace`: maximal runs of non-whitespace characters
(never yields an empty token). -/
def splitWhitespaceAux : List Char → List Char → List String
  | [], cur => if cur.isEmpty then [] else [String.mk cur.reverse]
  | c :: rest, cur =>
    if c.isWhitespace then
      if cur.isEmpty then splitWhitespaceAux rest []
      else String.mk cur.reverse :: splitWhitespaceAux rest []
    else splitWhitespaceAux rest (c :: cur)

/-- Rust `str::split_whitespace` over a string. -/
def split_whitespace (s : String) : List String := splitWhitespaceAux s.data []

/-- Rust `Result<T, MozartError>`. -/
abbrev MResult (α : Type) := Except MozartError α

/-- Success/failure discriminator for `MResult`. -/
def resultIsOk {α : Type} : MResult α → Bool
  | .ok _ => true
  | .error _ => false

/-- `pitch.rs`: `PitchClass(u8)`, semitones from C, always in `0..12`
(every constructor of the source takes the value `mod 12`). -/
structure PitchClass where
  val : Fin 12
  deriving DecidableEq, Repr

namespace PitchClass

def C : PitchClass := ⟨0⟩
def C_SHARP : PitchClass := ⟨1⟩
def D_FLAT : PitchClass := ⟨1⟩
def D : PitchClass := ⟨2⟩
def D_SHARP : PitchClass := ⟨3⟩
def E_FLAT : PitchClass := ⟨3⟩
def E : PitchClass := ⟨4⟩
def F : PitchClass := ⟨5⟩
def F_SHARP : PitchClass := ⟨6⟩
def G_FLAT : PitchClass := ⟨6⟩
def G : PitchClass := ⟨7⟩
def G_SHARP : PitchClass := ⟨8⟩
def A_FLAT : PitchClass := ⟨8⟩
def A : PitchClass := ⟨9⟩
def A_SHARP : PitchClass := ⟨10⟩
def B_FLAT : PitchClass := ⟨10⟩
def B : PitchClass := ⟨11⟩

/-- `PitchClass::new`: semitones mod 12. -/
def new (semitones : Nat) : PitchClass := ⟨⟨semitones % 12, by omega⟩⟩

/-- `PitchClass::semitones`. -/
def semitones (pc : PitchClass) : Nat := pc.val.val

/-- `PitchClass::transpose`: `(pc + n).rem_euclid(12)` computed in `i16`;
the `i16` arithmetic is exact for all reachable inputs, so it is `Int`. -/
def transpose (pc : PitchClass) (semitones : Int) : PitchClass :=
  ⟨⟨((((pc.val.val : Int) + semitones) % 12)).toNat, by omega⟩⟩

/-- `PitchClass::interval_to`: ascending interval `(other - self).rem_euclid(12)`. -/
def interval_to (pc other : PitchClass) : Nat :=
  ((((other.val.val : Int) - (pc.val.val : Int)) % 12)).toNat

/-- `PitchClass::natural_name` (the `unreachable!()` arm cannot fire for
values below 12; the value 11 is folded into the final arm). -/
def natural_name (pc : PitchClass) : String :=
  match pc.val.val with
  | 0 => "C"
  | 1 => "C#"
  | 2 => "D"
  | 3 => "Eb"
  | 4 => "E"
  | 5 => "F"
  | 6 => "F#"
  | 7 => "G"
  | 8 => "Ab"
  | 9 => "A"
  | 10 => "Bb"
  | _ => "B"

/-- `PitchClass::all`. -/
def all : List PitchClass :=
  [C, C_SHARP, D, D_SHARP, E, F, F_SHARP, G, G_SHARP, A, A_SHARP, B]

/-- `Display for PitchClass` prints `natural_name`. -/
def toStr (pc : PitchClass) : String := pc.natural_name

/-- `PitchClass::parse`. -/
def parse (s : String) : MResult PitchClass :=
  let s := strTrim s
  match strUpper s with
  | "C" => .ok C
  | "C#" | "C♯" | "CS" => .ok C_SHARP
  | "DB" | "D♭" => .ok D_FLAT
  | "D" => .ok D
  | "D#" | "D♯" | "DS" => .ok D_SHARP
  | "EB" | "E♭" => .ok E_FLAT
  | "E" => .ok E
  | "F" => .ok F
  | "F#" | "F♯" | "FS" => .ok F_SHARP
  | "GB" | "G♭" => .ok G_FLAT
  | "G" => .ok G
  | "G#" | "G♯" | "GS" => .ok G_SHARP
  | "AB" | "A♭" => .ok A_FLAT
  | "A" => .ok A
  | "A#" | "A♯" | "AS" => .ok A_SHARP
  | "BB" | "B♭" => .ok B_FLAT
  | "B" => .ok B
  | _ => .error (.InvalidPitch ("Unknown pitch class: " ++ s))

end PitchClass

/-- `pitch.rs`: `Pitch { midi: u8 }`, MIDI note number; every constructor of
the source checks `0..=127`. -/
structure Pitch where
  midi : Fin 128
  deriving DecidableEq, Repr

namespace Pitch

/-- `Pitch::MIDDLE_C`. -/
def MIDDLE_C : Pitch := ⟨60⟩

/-- `Pitch::from_midi`. -/
def from_midi (midi : Nat) : MResult Pitch :=
  if h : midi > 127 then
    .error (.InvalidPitch ("MIDI note " ++ toString midi ++ " out of range (0-127)"))
  else
    .ok ⟨⟨midi, by omega⟩⟩

/-- `Pitch::new`: `midi = (octave + 1) * 12 + pitch_class.semitones()` in `i16`. -/
def new (pitch_class : PitchClass) (octave : Int) : MResult Pitch :=
  let midi : Int := (octave + 1) * 12 + (pitch_class.semitones : Int)
  if h : midi < 0 ∨ midi > 127 then
    .error (.InvalidPitch ("Pitch " ++ pitch_class.toStr ++ toString octave ++ " out of MIDI range"))
  else
    .ok ⟨⟨midi.toNat, by omega⟩⟩

/-- `Pitch::pitch_class`. -/
def pitch_class (p : Pitch) : PitchClass := PitchClass.new (p.midi.val % 12)

/-- `Pitch::octave`: `(midi / 12) - 1` (scientific pitch notation). -/
def octave (p : Pitch) : Int := (p.midi.val / 12 : Nat) - 1

/-- `Pitch::transpose` (chromatic, checks the MIDI range). -/
def transpose (p : Pitch) (semitones : Int) : MResult Pitch :=
  let new_midi : Int := (p.midi.val : Int) + semitones
  if h : new_midi < 0 ∨ new_midi > 127 then
    .error (.TranspositionError ("Transposition would put note out of MIDI range: " ++
      toString p.midi.val ++ " + " ++ toString semitones ++ " = " ++ toString new_midi))
  else
    .ok ⟨⟨new_midi.toNat, by omega⟩⟩

end Pitch

/-- `scale.rs`: the nine supported scale types. -/
inductive ScaleType where
  | Major
  | NaturalMinor
  | HarmonicMinor
  | MelodicMinor
  | Dorian
  | Phrygian
  | Lydian
  | Mixolydian
  | Locrian
  deriving DecidableEq, Repr, Fintype

namespace ScaleType

/-- `ScaleType::intervals`: semitones from the root. -/
def intervals : ScaleType → List Nat
  | .Major => [0, 2, 4, 5, 7, 9, 11]
  | .NaturalMinor => [0, 2, 3, 5, 7, 8, 10]
  | .HarmonicMinor => [0, 2, 3, 5, 7, 8, 11]
  | .MelodicMinor => [0, 2, 3, 5, 7, 9, 11]
  | .Dorian => [0, 2, 3, 5, 7, 9, 10]
  | .Phrygian => [0, 1, 3, 5, 7, 8, 10]
  | .Lydian => [0, 2, 4, 6, 7, 9, 11]
  | .Mixolydian => [0, 2, 4, 5, 7, 9, 10]
  | .Locrian => [0, 1, 3, 5, 6, 8, 10]

end ScaleType

/-- `scale.rs`: `Scale { root, scale_type }`. -/
structure Scale where
  root : PitchClass
  scale_type : ScaleType
  deriving DecidableEq, Repr

namespace Scale

/-- `Scale::new`. -/
def new (root : PitchClass) (scale_type : ScaleType) : Scale := ⟨root, scale_type⟩

/-- `Scale::c_major`. -/
def c_major : Scale := new PitchClass.C .Major

/-- `Scale::a_minor`. -/
def a_minor : Scale := new PitchClass.A .NaturalMinor

/-- `Scale::pitch_classes`. -/
def pitch_classes (s : Scale) : List PitchClass :=
  s.scale_type.intervals.map (fun interval => s.root.transpose (interval : Int))

/-- `Scale::contains`. -/
def containsPC (s : Scale) (pitch_class : PitchClass) : Bool :=
  let interval := s.root.interval_to pitch_class
  s.scale_type.intervals.contains interval

/-- `Scale::degree_of`: 1-based position of the pitch class in the scale. -/
def degree_of (s : Scale) (pitch_class : PitchClass) : Option Nat :=
  let interval := s.root.interval_to pitch_class
  (s.scale_type.intervals.findIdx? (fun i => i == interval)).map (fun pos => pos + 1)

/-- `Scale::degree`: pitch class at a 1-based degree.  Inside the range guard
the index is within the seven-element interval list, so the panicking Rust
index is modelled with `getD`. -/
def degree (s : Scale) (degree : Nat) : Option PitchClass :=
  if degree < 1 ∨ degree > 7 then none
  else some (s.root.transpose ((s.scale_type.intervals.getD (degree - 1) 0 : Nat) : Int))

/-- `Scale::nearest_scale_tone`: nearest scale tone and its signed semitone
adjustment (`i8::MAX = 127` is the initial best distance). -/
def nearest_scale_tone (s : Scale) (pitch_class : PitchClass) : PitchClass × Int :=
  let interval := s.root.interval_to pitch_class
  if s.scale_type.intervals.contains interval then
    (pitch_class, 0)
  else
    s.scale_type.intervals.foldl
      (fun best scale_interval =>
        let diff : Int := (scale_interval : Int) - (interval : Int)
        [diff, diff - 12, diff + 12].foldl
          (fun best adj =>
            if adj.natAbs < best.2.natAbs then (pitch_class.transpose adj, adj) else best)
          best)
      (pitch_class, 127)

end Scale

/-- `transpose.rs`: `transpose_pitch_chromatic`. -/
def transpose_pitch_chromatic (pitch : Pitch) (semitones : Int) : MResult Pitch :=
  pitch.transpose semitones

/-- `transpose.rs`: `transpose_pitch_diatonic`.  Degrees are `i8` in the
source; all degree arithmetic runs in `i16`-safe ranges and is modelled on
`Int` (`/` and `%` of Rust are `Int.tdiv` / `Int.tmod`, `rem_euclid` is
`Int.emod`).  The traced-only `octave_change` value of the source is not
used by the result and is kept here under an inert binder. -/
def transpose_pitch_diatonic (pitch : Pitch) (source_scale target_scale : Scale)
    (degrees : Int) : MResult Pitch :=
  let pc := pitch.pitch_class
  let octave := pitch.octave
  let sourceDegree : MResult (Int × Int) :=
    match source_scale.degree_of pc with
    | some deg => .ok ((deg : Int), 0)
    | none =>
      let nearest_pc := (source_scale.nearest_scale_tone pc).1
      match source_scale.degree_of nearest_pc with
      | some deg => .ok ((deg : Int), 0)
      | none => .error (.TranspositionError ("Could not find scale degree"))
  match sourceDegree with
  | .error e => .error e
  | .ok (source_degree, octave_adjustment) =>
    let new_degree_raw := source_degree + degrees
    let _octave_change : Int :=
      if new_degree_raw > 7 then (new_degree_raw - 1).tdiv 7
      else if new_degree_raw < 1 then (new_degree_raw - 7).tdiv 7
      else 0
    let new_degree := ((new_degree_raw - 1) % 7 + 1).toNat
    match target_scale.degree new_degree with
    | none =>
      .error (.TranspositionError ("Invalid degree " ++ toString new_degree ++ " in target scale"))
    | some new_pc =>
      let old_semitones : Int := pc.semitones
      let new_semitones : Int := new_pc.semitones
      let full_octaves := degrees.tdiv 7
      let remaining_degrees := degrees.tmod 7
      let boundary_cross : Int :=
        if remaining_degrees > 0 then
          if new_semitones < old_semitones then 1 else 0
        else if remaining_degrees < 0 then
          if new_semitones > old_semitones then -1 else 0
        else 0
      let new_octave := octave + full_octaves + boundary_cross + octave_adjustment
      Pitch.new new_pc new_octave

/-- Observable midi value of a transposition result: `some midi` on success,
`none` on error (the two transposition paths report errors with different
messages, so results are compared through this projection). -/
def resultMidi (r : MResult Pitch) : Option Nat :=
  match r with
  | .ok p => some p.midi.val
  | .error _ => none

/-- `note.rs`: standard note values. -/
inductive NoteValue where
  | Whole
  | Half
  | Quarter
  | Eighth
  | Sixteenth
  deriving DecidableEq, Repr

/-- `lib.rs`: `TICKS_PER_QUARTER`. -/
def TICKS_PER_QUARTER : Nat := 480

namespace NoteValue

/-- `NoteValue::ticks`. -/
def ticks : NoteValue → Nat
  | .Whole => TICKS_PER_QUARTER * 4
  | .Half => TICKS_PER_QUARTER * 2
  | .Quarter => TICKS_PER_QUARTER
  | .Eighth => TICKS_PER_QUARTER / 2
  | .Sixteenth => TICKS_PER_QUARTER / 4

/-- `NoteValue::parse` (the error message carries the original string). -/
def parse (s : String) : MResult NoteValue :=
  match strLower s with
  | "w" | "whole" | "1" => .ok .Whole
  | "h" | "half" | "2" => .ok .Half
  | "q" | "quarter" | "4" => .ok .Quarter
  | "e" | "eighth" | "8" => .ok .Eighth
  | "s" | "sixteenth" | "16" => .ok .Sixteenth
  | _ => .error (.InvalidDuration ("Unknown note value: " ++ s))

end NoteValue

/-- `note.rs`: `NoteDuration { value, dotted }`. -/
structure NoteDuration where
  value : NoteValue
  dotted : Bool
  deriving DecidableEq, Repr

namespace NoteDuration

/-- `NoteDuration::new`. -/
def new (value : NoteValue) : NoteDuration := ⟨value, false⟩

/-- `NoteDuration::ticks`: dotted adds half of the base value. -/
def ticks (d : NoteDuration) : Nat :=
  let base := d.value.ticks
  if d.dotted then base + base / 2 else base

end NoteDuration

/-- `note.rs`: `Note` — pitch, timing, duration, velocity and voice are `u8`
resp. `u32` fields without further invariants (all public). -/
structure Note where
  pitch : Nat
  start_tick : Nat
  duration_ticks : Nat
  velocity : Nat
  voice : Nat
  deriving DecidableEq, Repr

namespace Note

/-- `Note::new`. -/
def new (pitch start_tick duration_ticks : Nat) : Note :=
  ⟨pitch, start_tick, duration_ticks, 100, 0⟩

/-- `Note::with_velocity` (velocity saturates at 127). -/
def with_velocity (pitch start_tick duration_ticks velocity : Nat) : Note :=
  ⟨pitch, start_tick, duration_ticks, min velocity 127, 0⟩

/-- `Note::from_pitch`. -/
def from_pitch (pitch : Pitch) (start_tick : Nat) (duration : NoteDuration) : Note :=
  ⟨pitch.midi.val, start_tick, duration.ticks, 100, 0⟩

/-- `Note::end_tick`. -/
def end_tick (n : Note) : Nat := n.start_tick + n.duration_ticks

end Note

/-- The `char_indices` scan of `Note::parse` looking for the first alphabetic
character that follows a digit or `-`; indices are character positions
(the source's byte indices always sit on character boundaries here). -/
def findPitchEnd : List Char → Nat → Bool → Option Nat
  | [], _, _ => none
  | c :: rest, i, found_octave =>
    if c.isDigit || c = '-' then findPitchEnd rest (i + 1) true
    else if found_octave && c.isAlpha then some i
    else findPitchEnd rest (i + 1) found_octave

/-- `str::parse::<i8>` of the Rust standard library: an optional sign
followed by at least one ASCII digit, rejecting values outside `i8` range. -/
def parseI8 (s : String) : Option Int :=
  let digitsVal : List Char → Option Nat := fun cs =>
    if cs.isEmpty then none
    else if cs.all Char.isDigit then
      some (cs.foldl (fun a c => a * 10 + (c.toNat - 48)) 0)
    else none
  match s.data with
  | '+' :: rest => (digitsVal rest).bind (fun n => if n ≤ 127 then some (n : Int) else none)
  | '-' :: rest => (digitsVal rest).bind (fun n => if n ≤ 128 then some (-(n : Int)) else none)
  | cs => (digitsVal cs).bind (fun n => if n ≤ 127 then some (n : Int) else none)

/-- Rust byte slicing `&s[..i]` / `&s[i..]` at byte index `i`: the split at
a character boundary, or `none` — the panic — when `i` falls inside a
multi-byte character or past the end. -/
def splitAtByte : List Char → Nat → Option (List Char × List Char)
  | cs, 0 => some ([], cs)
  | [], _ + 1 => none
  | c :: cs, i + 1 =>
    if c.utf8Size ≤ i + 1 then
      (splitAtByte cs (i + 1 - c.utf8Size)).map (fun p => (c :: p.1, p.2))
    else none

/-- `Pitch::parse` (`pitch.rs`): split at the first digit or `-` and parse
the pitch class and the octave.  The source computes `octave_start` with
`chars().position` — a character count — and then slices `&s[..octave_start]`
by bytes, so any multi-byte character before the octave (e.g. the accidental
`♯`) puts the slice index off the character boundary and the program panics;
the panic is the outer `none`. -/
def Pitch.parse (s : String) : Option (MResult Pitch) :=
  let s := strTrim s
  match s.data.findIdx? (fun c => c.isDigit || c = '-') with
  | none => some (.error (.ParseError ("No octave in pitch: " ++ s)))
  | some octave_start =>
    match splitAtByte s.data octave_start with
    | none => none
    | some (pre, post) =>
      let pitch_class_str := String.mk pre
      let octave_str := String.mk post
      match PitchClass.parse pitch_class_str with
      | .error e => some (.error e)
      | .ok pitch_class =>
        match parseI8 octave_str with
        | none => some (.error (.ParseError ("Invalid octave: " ++ octave_str)))
        | some octave => some (Pitch.new pitch_class octave)

/-- The duration-suffix parser shared by `Note::parse` and the rest branch of
`parse_melody`: empty means a quarter note, a trailing `.` means dotted. -/
def parseDurationStr (duration_str : String) : MResult NoteDuration :=
  if strIsEmpty duration_str then .ok (NoteDuration.new .Quarter)
  else
    let dotted := duration_str.data.getLast? == some '.'
    let value_str := if dotted then String.mk duration_str.data.dropLast else duration_str
    match NoteValue.parse value_str with
    | .error e => .error e
    | .ok value => .ok ⟨value, dotted⟩

/-- `Note::parse` (`note.rs`): parse text notation such as `C4q` or `F#5h.`.
Its own split is safe — `char_indices` yields byte indices that are always
character boundaries, so slicing there is the character split — but a panic
inside `Pitch::parse` propagates (`none`). -/
def Note.parse (s : String) (start_tick : Nat) : Option (MResult Note) :=
  let s := strTrim s
  if strIsEmpty s then some (.error (.ParseError ("Empty note string")))
  else
    let pitch_end := (findPitchEnd s.data 0 false).getD s.data.length
    let pitch_str := String.mk (s.data.take pitch_end)
    let duration_str := String.mk (s.data.drop pitch_end)
    match Pitch.parse pitch_str with
    | none => none
    | some (.error e) => some (.error e)
    | some (.ok pitch) =>
      match parseDurationStr duration_str with
      | .error e => some (.error e)
      | .ok duration => some (.ok (Note.from_pitch pitch start_tick duration))

/-- The rest-token test of `parse_melody`: `token.to_uppercase().starts_with('R')`. -/
def isRestToken (token : String) : Bool :=
  match (strUpper token).data with
  | c :: _ => c == 'R'
  | [] => false

/-- The rest branch of `parse_melody`: duration of `&token[1..]`. -/
def restDuration (token : String) : MResult NoteDuration :=
  parseDurationStr (String.mk (token.data.drop 1))

/-- The loop of `parse_melody` (`note.rs`), with the `notes` vector as an
accumulator and the running `current_tick` cursor; a panic inside
`Note::parse` aborts everything (`none`). -/
def parse_melody_go (tokens : List String) (current_tick : Nat) (notes : List Note) :
    Option (MResult (List Note)) :=
  match tokens with
  | [] => some (.ok notes)
  | token :: rest =>
    if strIsEmpty token then parse_melody_go rest current_tick notes
    else if isRestToken token then
      match restDuration token with
      | .error e => some (.error e)
      | .ok duration => parse_melody_go rest (current_tick + duration.ticks) notes
    else
      match Note.parse token current_tick with
      | none => none
      | some (.error e) => some (.error e)
      | some (.ok note) => parse_melody_go rest note.end_tick (notes ++ [note])

/-- `parse_melody` (`note.rs`): split on whitespace and run the loop from
tick 0 (`split_whitespace` never yields empty tokens, so the loop's
empty-token `continue` is unreachable, as in the source). -/
def parse_melody (s : String) : Option (MResult (List Note)) :=
  parse_melody_go (split_whitespace s) 0 []

/-- Spec-side description of `parse_melody`, written from the specification's
words: tokens are processed left to right with a running tick cursor starting
at 0; a rest advances the cursor by its duration and emits nothing; a note
token is emitted at the current cursor value and advances the cursor by its
duration; a malformed token aborts the whole melody with the error, and a
token that panics the parser aborts the program (`none`). -/
def melodyCursorSpec : List String → Nat → Option (MResult (List Note))
  | [], _ => some (.ok [])
  | token :: rest, cursor =>
    if strIsEmpty token then melodyCursorSpec rest cursor
    else if isRestToken token then
      match restDuration token with
      | .error e => some (.error e)
      | .ok duration => melodyCursorSpec rest (cursor + duration.ticks)
    else
      match Note.parse token cursor with
      | none => none
      | some (.error e) => some (.error e)
      | some (.ok note) => (melodyCursorSpec rest (cursor + note.duration_ticks)).map
          (fun r => r.map (fun ns => note :: ns))

/-- `ParseError`-variant discriminator for results. -/
def resultIsParseError {α : Type} : MResult α → Bool
  | .error (.ParseError _) => true
  | _ => false

/-- `transpose.rs`: `TransposeMode`. -/
inductive TransposeMode where
  | Chromatic (semitones : Int)
  | Diatonic (source_scale target_scale : Scale) (degrees : Int)
  deriving DecidableEq, Repr

/-- `transpose.rs`: `transpose_note`.  The source rebuilds the `Note` struct
literal from the new pitch plus the old `start_tick`/`duration_ticks`/
`velocity`; the `voice` attribute is not carried over (per the spec this is
the reference behavior), so the rebuilt note has the field's default 0. -/
def transpose_note (note : Note) (mode : TransposeMode) : MResult Note :=
  match Pitch.from_midi note.pitch with
  | .error e => .error e
  | .ok pitch =>
    let new_pitch : MResult Pitch :=
      match mode with
      | .Chromatic semitones => transpose_pitch_chromatic pitch semitones
      | .Diatonic source_scale target_scale degrees =>
        transpose_pitch_diatonic pitch source_scale target_scale degrees
    match new_pitch with
    | .error e => .error e
    | .ok new_pitch =>
      .ok { pitch := new_pitch.midi.val, start_tick := note.start_tick,
            duration_ticks := note.duration_ticks, velocity := note.velocity,
            voice := 0 }

/-- `transpose.rs`: `transpose_notes` — `collect::<Result<Vec<_>>>` over the
notes: the first error aborts the whole batch. -/
def transpose_notes (notes : List Note) (mode : TransposeMode) : MResult (List Note) :=
  match notes with
  | [] => .ok []
  | note :: rest =>
    match transpose_note note mode with
    | .error e => .error e
    | .ok note' =>
      match transpose_notes rest mode with
      | .error e => .error e
      | .ok rest' => .ok (note' :: rest')

/-- The 7-bit group buffer of `MidiExporter::write_var_length`: little-endian
base-128 digits of the value (the `while value > 0` loop).  The extra fuel
argument makes the recursion structural; the value itself bounds the number
of iterations. -/
def vlqGroupsAux (fuel v : Nat) : List Nat :=
  match fuel, v with
  | _, 0 => []
  | 0, _ => []
  | fuel + 1, v => v % 128 :: vlqGroupsAux fuel (v / 128)

/-- The reversed-output loop of `write_var_length`: every byte written before
the final one gets the continuation bit `0x80`. -/
def markContinuation : List Nat → List Nat
  | [] => []
  | [b] => [b]
  | b :: rest => (b ||| 128) :: markContinuation rest

/-- `midi.rs`: `MidiExporter::write_var_length`, as the list of bytes it
pushes: zero is a single `0x00` byte, otherwise the 7-bit groups are written
most-significant first with continuation bits on all but the last byte.
The groups are collected in a fixed `[0u8; 4]` buffer, so a value needing a
fifth group (any value ≥ `2^28`) indexes `buffer[4]` and the program panics;
the panic is `none`. -/
def write_var_length (value : Nat) : Option (List Nat) :=
  if value = 0 then some [0]
  else
    let buffer := vlqGroupsAux value value
    if buffer.length ≤ 4 then some (markContinuation buffer.reverse) else none

/-- `midi.rs`: the `NoteEvent` struct used while building the track. -/
structure NoteEvent where
  tick : Nat
  is_on : Bool
  pitch : Nat
  velocity : Nat
  deriving DecidableEq, Repr

/-- The Note-On event pushed for a note (`90 pitch velocity` at `start_tick`). -/
def noteOnEvent (n : Note) : NoteEvent := ⟨n.start_tick, true, n.pitch, n.velocity⟩

/-- The Note-Off event pushed for a note (`80 pitch 00` at `end_tick`). -/
def noteOffEvent (n : Note) : NoteEvent := ⟨n.end_tick, false, n.pitch, 0⟩

/-- The unsorted event list of `build_track`: each note contributes its
Note-On and its Note-Off. -/
def noteEvents (notes : List Note) : List NoteEvent :=
  (notes.map (fun n => [noteOnEvent n, noteOffEvent n])).flatten

/-- The sort order of `build_track`:
`a.tick.cmp(&b.tick).then_with(|| a.is_on.cmp(&b.is_on))` as a `≤` relation
(`false < true` on `bool`, so Note-Off sorts before Note-On at equal ticks). -/
def NoteEvent.le (a b : NoteEvent) : Prop :=
  a.tick < b.tick ∨ (a.tick = b.tick ∧ (a.is_on = true → b.is_on = true))

instance : DecidableRel NoteEvent.le := fun a b => by unfold NoteEvent.le; infer_instance

instance : IsTotal NoteEvent NoteEvent.le := by
  constructor
  intro a b
  unfold NoteEvent.le
  rcases Nat.lt_trichotomy a.tick b.tick with h | h | h
  · exact Or.inl (Or.inl h)
  · cases hb : b.is_on
    · cases ha : a.is_on
      · exact Or.inl (Or.inr ⟨h, by simp [ha]⟩)
      · exact Or.inr (Or.inr ⟨h.symm, by simp [ha]⟩)
    · exact Or.inl (Or.inr ⟨h, by simp [hb]⟩)
  · exact Or.inr (Or.inl h)

instance : IsTrans NoteEvent NoteEvent.le := by
  constructor
  intro a b c hab hbc
  unfold NoteEvent.le at *
  rcases hab with h₁ | ⟨h₁, h₁'⟩ <;> rcases hbc with h₂ | ⟨h₂, h₂'⟩
  · exact Or.inl (h₁.trans h₂)
  · exact Or.inl (h₂ ▸ h₁)
  · exact Or.inl (h₁ ▸ h₂)
  · exact Or.inr ⟨h₁.trans h₂, fun h => h₂' (h₁' h)⟩

/-- The stable sort of `build_track` (`Vec::sort_by` is stable; a stable sort
with respect to the total preorder `NoteEvent.le` is modelled by insertion
sort). -/
def sortNoteEvents (events : List NoteEvent) : List NoteEvent :=
  List.insertionSort NoteEvent.le events

/-- The status/data bytes written for one event in `build_track`. -/
def eventBytes (e : NoteEvent) : List Nat :=
  if e.is_on then [0x90, e.pitch, e.velocity] else [0x80, e.pitch, 0]

/-- The event-writing loop of `build_track`: each event is preceded by the
variable-length delta `event.tick.saturating_sub(last_tick)` (truncated `Nat`
subtraction is exactly `saturating_sub`); a delta that overflows the VLQ
buffer panics the whole loop (`none`). -/
def writeNoteEvents (last_tick : Nat) : List NoteEvent → Option (List Nat)
  | [] => some []
  | e :: rest =>
    match write_var_length (e.tick - last_tick) with
    | none => none
    | some dbytes => (writeNoteEvents e.tick rest).map (fun bs => dbytes ++ eventBytes e ++ bs)

/-- The note-event section of `build_track` for a list of notes. -/
def buildTrackNoteSection (notes : List Note) : Option (List Nat) :=
  writeNoteEvents 0 (sortNoteEvents (noteEvents notes))

/-- The `(delta, event)` pairs produced by the event-writing loop. -/
def eventDeltas (last_tick : Nat) : List NoteEvent → List (Nat × NoteEvent)
  | [] => []
  | e :: rest => (e.tick - last_tick, e) :: eventDeltas e.tick rest

/-- The per-event byte blocks — each `(delta, event)` pair contributes its
variable-length delta followed by the event's status bytes — with a VLQ
buffer overflow propagating as the panic. -/
def perEventBlocks : List (Nat × NoteEvent) → Option (List (List Nat))
  | [] => some []
  | p :: ps =>
    match write_var_length p.1 with
    | none => none
    | some dbytes =>
      (perEventBlocks ps).map (fun blocks => (dbytes ++ eventBytes p.2) :: blocks)

/-- `build_track`'s tempo microseconds value `60_000_000 / tempo`: the
division is unguarded in the source, so the `tempo = 0` case — a division by
zero, which panics in Rust — is modelled as `none`. -/
def tempoMicroseconds (tempo : Nat) : Option Nat :=
  if tempo = 0 then none else some (60000000 / tempo)

/-- The tempo meta event block written at the top of `build_track`
(`FF 51 03` followed by the 24-bit big-endian microseconds-per-beat value);
`none` exactly when the tempo division panics. -/
def buildTrackTempoEvent (tempo : Nat) : Option (List Nat) :=
  (tempoMicroseconds tempo).bind (fun tempo_us =>
    (write_var_length 0).map (fun dbytes =>
      dbytes ++
        [0xFF, 0x51, 0x03, (tempo_us >>> 16) % 256, (tempo_us >>> 8) % 256, tempo_us % 256]))

/-- `time.rs`: accent levels. -/
inductive AccentLevel where
  | Weak
  | Medium
  | Strong
  deriving DecidableEq, Repr

namespace AccentLevel

/-- `AccentLevel::from_value`. -/
def from_value (v : Nat) : AccentLevel :=
  match v with
  | 3 => .Strong
  | 2 => .Medium
  | _ => .Weak

end AccentLevel

/-- `time.rs`: `AccentPattern`. -/
structure AccentPattern where
  accents : List AccentLevel
  deriving DecidableEq, Repr

namespace AccentPattern

/-- `AccentPattern::new`. -/
def new (accents : List AccentLevel) : AccentPattern := ⟨accents⟩

/-- `AccentPattern::from_values`. -/
def from_values (values : List Nat) : AccentPattern :=
  ⟨values.map AccentLevel.from_value⟩

/-- `AccentPattern::default_for_beats`: hand-written groupings for 2–15
beats, otherwise strong on beat 1 and weak elsewhere. -/
def default_for_beats (beats : Nat) : AccentPattern :=
  let pattern : List AccentLevel :=
    match beats with
    | 2 => [.Strong, .Weak]
    | 3 => [.Strong, .Weak, .Weak]
    | 4 => [.Strong, .Weak, .Medium, .Weak]
    | 5 => [.Strong, .Weak, .Weak, .Medium, .Weak]
    | 6 => [.Strong, .Weak, .Weak, .Medium, .Weak, .Weak]
    | 7 => [.Strong, .Weak, .Weak, .Medium, .Weak, .Medium, .Weak]
    | 8 => [.Strong, .Weak, .Medium, .Weak, .Medium, .Weak, .Medium, .Weak]
    | 9 => [.Strong, .Weak, .Weak, .Medium, .Weak, .Weak, .Medium, .Weak, .Weak]
    | 10 => [.Strong, .Weak, .Weak, .Medium, .Weak, .Medium, .Weak, .Medium, .Weak, .Weak]
    | 11 => [.Strong, .Weak, .Weak, .Medium, .Weak, .Weak, .Medium, .Weak, .Weak, .Medium,
        .Weak]
    | 12 => [.Strong, .Weak, .Weak, .Medium, .Weak, .Weak, .Medium, .Weak, .Weak, .Medium,
        .Weak, .Weak]
    | 13 => [.Strong, .Weak, .Weak, .Medium, .Weak, .Weak, .Medium, .Weak, .Weak, .Medium,
        .Weak, .Medium, .Weak]
    | 14 => [.Strong, .Weak, .Medium, .Weak, .Medium, .Weak, .Medium, .Weak, .Medium, .Weak,
        .Medium, .Weak, .Medium, .Weak]
    | 15 => [.Strong, .Weak, .Weak, .Medium, .Weak, .Weak, .Medium, .Weak, .Weak, .Medium,
        .Weak, .Weak, .Medium, .Weak, .Weak]
    | _ => (List.replicate beats AccentLevel.Weak).set 0 .Strong
  ⟨pattern⟩

/-- `AccentPattern::len`. -/
def len (p : AccentPattern) : Nat := p.accents.length

end AccentPattern

/-- `time.rs`: `TimeSignature` (all fields public). -/
structure TimeSignature where
  numerator : Nat
  denominator : Nat
  accents : AccentPattern
  deriving DecidableEq, Repr

namespace TimeSignature

/-- `TimeSignature::validate`: numerator 2–15, denominator 2, 4, 8 or 16. -/
def validate (numerator denominator : Nat) : MResult Unit :=
  if numerator < 2 ∨ numerator > 15 then
    .error (.InvalidTimeSignature numerator denominator)
  else if denominator ≠ 4 ∧ denominator ≠ 8 ∧ denominator ≠ 2 ∧ denominator ≠ 16 then
    .error (.InvalidTimeSignature numerator denominator)
  else .ok ()

/-- `TimeSignature::new`: default accents for the numerator. -/
def new (numerator denominator : Nat) : MResult TimeSignature :=
  match validate numerator denominator with
  | .error e => .error e
  | .ok _ => .ok ⟨numerator, denominator, AccentPattern.default_for_beats numerator⟩

/-- `TimeSignature::with_accents`: a pattern whose length does not match the
numerator is replaced by the default pattern (with only a log warning). -/
def with_accents (numerator denominator : Nat) (accents : AccentPattern) :
    MResult TimeSignature :=
  match validate numerator denominator with
  | .error e => .error e
  | .ok _ =>
    let accents :=
      if accents.len ≠ numerator then AccentPattern.default_for_beats numerator
      else accents
    .ok ⟨numerator, denominator, accents⟩

/-- `TimeSignature::common` (4/4; the `unwrap` of `new(4, 4)` succeeds). -/
def common : TimeSignature := ⟨4, 4, AccentPattern.default_for_beats 4⟩

/-- `TimeSignature::set_accents`: a pattern of matching length replaces the
stored one; a mismatched pattern is ignored (only a log warning), leaving the
time signature unchanged. -/
def set_accents (ts : TimeSignature) (accents : AccentPattern) : TimeSignature :=
  if accents.len = ts.numerator then { ts with accents := accents } else ts

end TimeSignature

/-- `song.rs`: `SongMetadata` (timestamps are opaque strings here). -/
structure SongMetadata where
  title : String
  composer : String
  created : String
  modified : String
  deriving DecidableEq, Repr

/-- `song.rs`: `SongSettings` — `tempo` is a plain public `u16` field. -/
structure SongSettings where
  tempo : Nat
  time_signature : TimeSignature
  key : Scale
  deriving DecidableEq, Repr

/-- `song.rs`: `Song`. -/
structure Song where
  version : String
  metadata : SongMetadata
  settings : SongSettings
  notes : List Note
  deriving DecidableEq, Repr

namespace Song

/-- `Song::set_tempo`: `tempo.clamp(20, 300)`; no error path and no other
field is touched (in particular `update_modified` is not called). -/
def set_tempo (song : Song) (tempo : Nat) : Song :=
  { song with settings := { song.settings with tempo := min (max tempo 20) 300 } }

end Song

/-! ## Supporting lemmas -/

/-- The base-128 group buffer is exactly `Nat.digits 128`. -/
theorem vlqGroupsAux_eq_digits : ∀ fuel v : Nat, v ≤ fuel →
    vlqGroupsAux fuel v = Nat.digits 128 v := by
  intro fuel
  induction fuel with
  | zero =>
    intro v hv
    interval_cases v
    simp [vlqGroupsAux]
  | succ fuel ih =>
    intro v hv
    match v with
    | 0 => simp [vlqGroupsAux]
    | v + 1 =>
      have hstep : vlqGroupsAux (fuel + 1) (v + 1) =
          (v + 1) % 128 :: vlqGroupsAux fuel ((v + 1) / 128) := rfl
      rw [hstep, Nat.digits_def' (by norm_num : (1:ℕ) < 128) (Nat.succ_pos v), ih]
      have := Nat.div_lt_self (Nat.succ_pos v) (show 1 < 128 by norm_num)
      omega

/-- `markContinuation` preserves the length. -/
theorem markContinuation_length : ∀ l : List Nat, (markContinuation l).length = l.length := by
  intro l
  induction l with
  | nil => rfl
  | cons b rest ih =>
    cases rest with
    | nil => rfl
    | cons c rest' => simpa [markContinuation] using ih

/-- Setting the continuation bit on a 7-bit group adds 128. -/
theorem lor_128_of_lt (b : Nat) (hb : b < 128) : b ||| 128 = b + 128 := by
  have : ∀ x : Fin 128, x.val ||| 128 = x.val + 128 := by decide
  simpa using this ⟨b, hb⟩

/-- Stripping the continuation bits recovers the groups. -/
theorem markContinuation_map_mod (l : List Nat) (h : ∀ b ∈ l, b < 128) :
    (markContinuation l).map (fun b => b % 128) = l := by
  induction l with
  | nil => rfl
  | cons b rest ih =>
    cases rest with
    | nil =>
      have hb := h b (by simp)
      simp [markContinuation, Nat.mod_eq_of_lt hb]
    | cons c rest' =>
      have hb := h b (by simp)
      have hstep : markContinuation (b :: c :: rest') =
          (b ||| 128) :: markContinuation (c :: rest') := rfl
      rw [hstep, List.map_cons, lor_128_of_lt b hb]
      have hmod : (b + 128) % 128 = b := by omega
      rw [hmod, ih]
      intro x hx
      exact h x (by simp [hx])

/-- Big-endian folding of the little-endian group list. -/
theorem foldl_reverse_ofDigits : ∀ l : List Nat,
    l.reverse.foldl (fun acc d => acc * 128 + d) 0 = Nat.ofDigits 128 l := by
  intro l
  rw [List.foldl_reverse]
  induction l with
  | nil => simp [Nat.ofDigits]
  | cons d rest ih =>
    rw [List.foldr_cons, ih]
    simp [Nat.ofDigits_cons]
    ring

/-- All but the last byte of `markContinuation` output carry the high bit. -/
theorem markContinuation_high_bits : ∀ (l : List Nat) (i : Nat), (∀ b ∈ l, b < 128) →
    i + 1 < (markContinuation l).length → 128 ≤ (markContinuation l).getD i 0 := by
  intro l
  induction l with
  | nil => intro i _ h; simp [markContinuation] at h
  | cons b rest ih =>
    intro i hlt h
    cases rest with
    | nil => simp [markContinuation] at h
    | cons c rest' =>
      have hstep : markContinuation (b :: c :: rest') =
          (b ||| 128) :: markContinuation (c :: rest') := rfl
      rw [hstep] at h ⊢
      cases i with
      | zero =>
        have hb := hlt b (by simp)
        rw [lor_128_of_lt b hb]
        simp
      | succ i =>
        simp only [List.length_cons] at h
        have := ih i (fun x hx => hlt x (by simp [hx])) (by simpa using h)
        simpa using this

/-- The last byte of `markContinuation` output is the last input byte. -/
theorem markContinuation_getLast? : ∀ l : List Nat,
    (markContinuation l).getLast? = l.getLast? := by
  intro l
  induction l with
  | nil => rfl
  | cons b rest ih =>
    cases rest with
    | nil => rfl
    | cons c rest' =>
      have hstep : markContinuation (b :: c :: rest') =
          (b ||| 128) :: markContinuation (c :: rest') := rfl
      rw [hstep]
      cases hmc : markContinuation (c :: rest') with
      | nil =>
        have := markContinuation_length (c :: rest')
        rw [hmc] at this
        simp at this
      | cons d rest'' =>
        rw [hmc] at ih
        rw [List.getLast?_cons_cons, List.getLast?_cons_cons]
        exact ih

/-- The byte list of `write_var_length v` for `v ≠ 0` within the buffer
capacity, in digit terms. -/
theorem write_var_length_pos (value : Nat) (h : value ≠ 0)
    (h4 : (Nat.digits 128 value).length ≤ 4) :
    write_var_length value = some (markContinuation (Nat.digits 128 value).reverse) := by
  rw [write_var_length, if_neg h, vlqGroupsAux_eq_digits value value le_rfl, if_pos h4]

/-- A fifth 7-bit group overflows the four-byte buffer. -/
theorem write_var_length_overflow (value : Nat) (h4 : 4 < (Nat.digits 128 value).length) :
    write_var_length value = none := by
  have h : value ≠ 0 := by
    intro h0
    rw [h0] at h4
    simp at h4
  rw [write_var_length, if_neg h, vlqGroupsAux_eq_digits value value le_rfl,
    if_neg (by omega)]

/-- The buffer capacity in value terms: four base-128 digits suffice exactly
below `2^28`. -/
theorem digits_le_four_iff (value : Nat) :
    (Nat.digits 128 value).length ≤ 4 ↔ value < 2 ^ 28 := by
  have hpow : (128 : Nat) ^ 4 = 2 ^ 28 := by norm_num
  constructor
  · intro h
    calc value < 128 ^ (Nat.digits 128 value).length :=
          Nat.lt_base_pow_length_digits (by norm_num)
      _ ≤ 128 ^ 4 := Nat.pow_le_pow_right (by norm_num) h
      _ = 2 ^ 28 := hpow
  · intro h
    by_cases h0 : value = 0
    · subst h0
      simp
    · rw [Nat.digits_len 128 value (by norm_num) h0]
      have hlt : value < 128 ^ 4 := by
        rw [hpow]
        exact h
      have := Nat.log_lt_of_lt_pow h0 hlt
      omega

/-! ## Claims -/

/-- C5 counterexample: at `2^28` — a delta reachable from the public u32
note ticks — the encoder needs a fifth 7-bit group, overflows its fixed
four-byte buffer and panics instead of producing an encoding, while
`2^28 - 1` still encodes in four bytes. -/
theorem vlq_buffer_overflow_at_2_pow_28 :
    write_var_length (2 ^ 28) = none ∧
    write_var_length (2 ^ 28 - 1) = some [0xFF, 0xFF, 0xFF, 0x7F] := by
  exact ⟨by decide, by decide⟩

/-- C5 amended: for every value below `2^28` (those fitting the encoder's
fixed four-byte buffer) the VLQ encoder splits its input into 7-bit
big-endian groups, sets the high bit on every byte except the last, leaves
the final byte below `0x80`, and folding the 7-bit payloads back up recovers
the input value; zero encodes as the single byte `0x00` and 0, 127, 128, 480
map to the expected encodings; every value from `2^28` up overflows the
buffer and the program panics. -/
theorem vlq_seven_bit_big_endian_groups :
    (write_var_length 0 = some [0x00] ∧ write_var_length 127 = some [0x7F] ∧
      write_var_length 128 = some [0x81, 0x00] ∧ write_var_length 480 = some [0x83, 0x60]) ∧
    ∀ value : Nat,
      (value < 2 ^ 28 →
        (write_var_length value).isSome = true ∧
        1 ≤ ((write_var_length value).getD []).length ∧
        (∀ i, i + 1 < ((write_var_length value).getD []).length →
          128 ≤ ((write_var_length value).getD []).getD i 0) ∧
        ((write_var_length value).getD []).getD
          (((write_var_length value).getD []).length - 1) 0 < 128 ∧
        ((write_var_length value).getD []).foldl
          (fun acc b => acc * 128 + b % 128) 0 = value) ∧
      (2 ^ 28 ≤ value → write_var_length value = none) := by
  refine ⟨⟨by decide, by decide, by decide, by decide⟩, ?_⟩
  intro value
  constructor
  · intro hv
    by_cases h0 : value = 0
    · subst h0
      refine ⟨by decide, by decide, ?_, by decide, by decide⟩
      intro i hi
      have : ((write_var_length 0).getD []).length = 1 := by decide
      omega
    · have h4 : (Nat.digits 128 value).length ≤ 4 := (digits_le_four_iff value).mpr hv
      rw [write_var_length_pos value h0 h4]
      simp only [Option.getD_some]
      have hne : Nat.digits 128 value ≠ [] := Nat.digits_ne_nil_iff_ne_zero.mpr h0
      have hlt : ∀ b ∈ (Nat.digits 128 value).reverse, b < 128 := by
        intro b hb
        exact Nat.digits_lt_base (by norm_num) (List.mem_reverse.mp hb)
      have hlen : (markContinuation (Nat.digits 128 value).reverse).length =
          (Nat.digits 128 value).length := by
        rw [markContinuation_length, List.length_reverse]
      have hlen1 : 1 ≤ (Nat.digits 128 value).length := by
        cases hd : Nat.digits 128 value with
        | nil => exact absurd hd hne
        | cons a l => simp [hd]
      refine ⟨rfl, by omega, ?_, ?_, ?_⟩
      · intro i hi
        exact markContinuation_high_bits _ i hlt (by omega)
      · have hgl : (markContinuation (Nat.digits 128 value).reverse).getLast? =
            (Nat.digits 128 value).head? := by
          rw [markContinuation_getLast?, List.getLast?_reverse]
        have hgd : (markContinuation (Nat.digits 128 value).reverse).getD
            ((markContinuation (Nat.digits 128 value).reverse).length - 1) 0 =
            ((Nat.digits 128 value).head?).getD 0 := by
          rw [List.getD_eq_getElem?_getD, ← List.getLast?_eq_getElem? _, hgl]
        rw [hgd]
        cases hd : (Nat.digits 128 value).head? with
        | none => simp
        | some b =>
          have hb : b ∈ Nat.digits 128 value := by
            cases hds : Nat.digits 128 value with
            | nil => exact absurd hds hne
            | cons a l =>
              rw [hds] at hd
              simp at hd
              simp [hds, hd]
          simpa using Nat.digits_lt_base (by norm_num) hb
      · have hmap := congrArg (List.foldl (fun (acc d : Nat) => acc * 128 + d) 0)
          (markContinuation_map_mod _ hlt)
        simp only [List.foldl_map] at hmap
        rw [hmap, foldl_reverse_ofDigits, Nat.ofDigits_digits]
  · intro hv
    have h4 : 4 < (Nat.digits 128 value).length := by
      by_contra hle
      push_neg at hle
      have := (digits_le_four_iff value).mp hle
      omega
    exact write_var_length_overflow value h4

/-- C5 witness: 480 is within the buffer capacity, its encoding exists and
the two-byte encoding of 480 has its first byte marked with the continuation
bit. -/
theorem vlq_seven_bit_big_endian_groups_witness :
    480 < 2 ^ 28 ∧ (write_var_length 480).isSome = true ∧
    128 ≤ ((write_var_length 480).getD []).getD 0 0 :=
  ⟨by decide, ((vlq_seven_bit_big_endian_groups.2 480).1 (by decide)).1,
    ((vlq_seven_bit_big_endian_groups.2 480).1 (by decide)).2.2.1 0 (by decide)⟩

/-- C1: transposing A4 (MIDI 69) by +2 scale degrees within A natural minor
crosses the octave boundary upward: the result is C5 (MIDI 72), not C4
(MIDI 60). -/
theorem diatonic_transpose_a4_octave_boundary :
    transpose_pitch_diatonic ⟨69⟩ Scale.a_minor Scale.a_minor 2 = .ok ⟨72⟩ ∧
    transpose_pitch_diatonic ⟨69⟩ Scale.a_minor Scale.a_minor 2 ≠ .ok ⟨60⟩ := by
  decide

/-- C8: `PitchClass::transpose` by `n` followed by `-n` is the identity for
every integer semitone count, and each step's result stays in `0..12`
(floor/Euclidean modulo agree for the positive modulus 12). -/
theorem pitch_class_transpose_round_trip :
    ∀ (pc : PitchClass) (n : Int),
      (pc.transpose n).transpose (-n) = pc ∧ (pc.transpose n).semitones < 12 := by
  intro pc n
  refine ⟨?_, (pc.transpose n).val.isLt⟩
  apply congrArg PitchClass.mk
  apply Fin.ext
  show (((((((pc.val.val : Int) + n) % 12).toNat : Nat) : Int) + -n) % 12).toNat = pc.val.val
  have h := pc.val.isLt
  omega

/-- C10: `Song::set_tempo` clamps the requested tempo into `[20, 300]`
without any error path (the function is total) and leaves the notes, the
metadata — including the `modified` timestamp — the time signature, the key
and the version untouched. -/
theorem set_tempo_clamps_and_changes_nothing_else :
    ∀ (song : Song) (tempo : Nat),
      (song.set_tempo tempo).settings.tempo =
        (if tempo < 20 then 20 else if tempo > 300 then 300 else tempo) ∧
      (song.set_tempo tempo).notes = song.notes ∧
      (song.set_tempo tempo).metadata = song.metadata ∧
      (song.set_tempo tempo).settings.time_signature = song.settings.time_signature ∧
      (song.set_tempo tempo).settings.key = song.settings.key ∧
      (song.set_tempo tempo).version = song.version := by
  intro song tempo
  refine ⟨?_, rfl, rfl, rfl, rfl, rfl⟩
  show min (max tempo 20) 300 = _
  split_ifs <;> omega

/-- C9: the tempo meta value `60_000_000 / tempo` of `build_track` is well
defined exactly for tempo ≥ 1; at tempo 0 the division-by-zero branch is
reached (modelled as `none`); `set_tempo` itself can never produce a tempo
below 20, so tempo 0 is only reachable by writing the public field directly
(e.g. through deserialization, which performs no validation). -/
theorem tempo_meta_division_guard :
    ∀ tempo : Nat,
      (1 ≤ tempo → (buildTrackTempoEvent tempo).isSome = true) ∧
      buildTrackTempoEvent 0 = none ∧
      (∀ (song : Song) (t : Nat), 20 ≤ (song.set_tempo t).settings.tempo) := by
  intro tempo
  refine ⟨?_, rfl, ?_⟩
  · intro h
    unfold buildTrackTempoEvent tempoMicroseconds
    rw [if_neg (by omega)]
    rfl
  · intro song t
    show 20 ≤ min (max t 20) 300
    omega

/-- C9 witness: at the default tempo 120 the tempo meta event exists. -/
theorem tempo_meta_division_guard_witness :
    1 ≤ 120 ∧ (buildTrackTempoEvent 120).isSome = true :=
  ⟨by decide, (tempo_meta_division_guard 120).1 (by decide)⟩

/-- C6 counterexample: transposing a voice-1 note by 0 semitones succeeds
but returns a voice-0 note, so more than the pitch can change — the claim's
"only the pitch changes" fails on the `voice` field. -/
theorem transpose_note_drops_voice :
    transpose_note ⟨60, 0, 480, 100, 1⟩ (.Chromatic 0) = .ok ⟨60, 0, 480, 100, 0⟩ ∧
    (⟨60, 0, 480, 100, 0⟩ : Note) ≠ ⟨60, 0, 480, 100, 1⟩ := by
  decide

/-- C6 amended: a successful `transpose_note` preserves `start_tick`,
`duration_ticks` and `velocity` and resets `voice` to 0 (only pitch and
voice can change); `transpose_notes` is all-or-nothing — an error result is
the error of some note of the batch, and any failing note makes the whole
batch fail. -/
theorem transpose_note_frame_and_all_or_nothing :
    (∀ (note : Note) (mode : TransposeMode) (out : Note),
      transpose_note note mode = .ok out →
      out.start_tick = note.start_tick ∧ out.duration_ticks = note.duration_ticks ∧
        out.velocity = note.velocity ∧ out.voice = 0) ∧
    (∀ (notes : List Note) (mode : TransposeMode) (e : MozartError),
      transpose_notes notes mode = .error e →
      ∃ n, n ∈ notes ∧ transpose_note n mode = .error e) ∧
    (∀ (notes : List Note) (mode : TransposeMode) (n : Note) (e : MozartError),
      n ∈ notes → transpose_note n mode = .error e →
      ∃ fe, transpose_notes notes mode = .error fe) := by
  refine ⟨?_, ?_, ?_⟩
  · intro note mode out h
    unfold transpose_note at h
    cases hfm : Pitch.from_midi note.pitch with
    | error e => simp only [hfm] at h; exact absurd h (by simp)
    | ok pitch =>
      simp only [hfm] at h
      cases mode with
      | Chromatic s =>
        cases hc : transpose_pitch_chromatic pitch s with
        | error e => simp only [hc] at h; exact absurd h (by simp)
        | ok np =>
          simp only [hc] at h
          cases h
          exact ⟨rfl, rfl, rfl, rfl⟩
      | Diatonic src tgt deg =>
        cases hc : transpose_pitch_diatonic pitch src tgt deg with
        | error e => simp only [hc] at h; exact absurd h (by simp)
        | ok np =>
          simp only [hc] at h
          cases h
          exact ⟨rfl, rfl, rfl, rfl⟩
  · intro notes mode
    induction notes with
    | nil => intro e h; simp [transpose_notes] at h
    | cons note rest ih =>
      intro e h
      unfold transpose_notes at h
      split at h
      · cases h
        rename_i heq
        exact ⟨note, by simp, heq⟩
      · split at h
        · cases h
          rename_i heq
          obtain ⟨n, hn, hne⟩ := ih _ heq
          exact ⟨n, by simp [hn], hne⟩
        · exact absurd h (by simp)
  · intro notes mode
    induction notes with
    | nil => intro n e hn _; simp at hn
    | cons note rest ih =>
      intro n e hn hne
      rcases List.mem_cons.mp hn with rfl | hmem
      · refine ⟨e, ?_⟩
        unfold transpose_notes
        rw [hne]
      · cases h1 : transpose_note note mode with
        | error e1 =>
          refine ⟨e1, ?_⟩
          unfold transpose_notes
          rw [h1]
        | ok note' =>
          obtain ⟨fe, hfe⟩ := ih n e hmem hne
          refine ⟨fe, ?_⟩
          unfold transpose_notes
          rw [h1, hfe]

/-- C6 witness: the frame conditions instantiated on a concrete note. -/
theorem transpose_note_frame_witness :
    (⟨62, 0, 480, 100, 0⟩ : Note).start_tick = (⟨60, 0, 480, 100, 1⟩ : Note).start_tick ∧
    (⟨62, 0, 480, 100, 0⟩ : Note).duration_ticks = (⟨60, 0, 480, 100, 1⟩ : Note).duration_ticks ∧
    (⟨62, 0, 480, 100, 0⟩ : Note).velocity = (⟨60, 0, 480, 100, 1⟩ : Note).velocity ∧
    (⟨62, 0, 480, 100, 0⟩ : Note).voice = 0 :=
  transpose_note_frame_and_all_or_nothing.1 ⟨60, 0, 480, 100, 1⟩ (.Chromatic 2)
    ⟨62, 0, 480, 100, 0⟩ (by decide)

/-- The default accent pattern always has exactly `beats` entries. -/
theorem default_for_beats_len (beats : Nat) :
    (AccentPattern.default_for_beats beats).len = beats := by
  rcases beats with _|_|_|_|_|_|_|_|_|_|_|_|_|_|_|_|n
  all_goals
    simp [AccentPattern.default_for_beats, AccentPattern.len, List.length_set,
      List.length_replicate]

/-- C7 counterexample: a custom (non-default) 4-beat pattern installed via
`with_accents` survives a mismatched `set_accents` call unchanged — the
mismatch is ignored by keeping the old pattern, not by falling back to the
default pattern for the numerator. -/
theorem set_accents_mismatch_keeps_old_pattern :
    TimeSignature.with_accents 4 4 ⟨[.Strong, .Strong, .Strong, .Strong]⟩ =
      .ok ⟨4, 4, ⟨[.Strong, .Strong, .Strong, .Strong]⟩⟩ ∧
    (TimeSignature.set_accents ⟨4, 4, ⟨[.Strong, .Strong, .Strong, .Strong]⟩⟩
      ⟨[.Weak, .Weak, .Weak]⟩).accents = ⟨[.Strong, .Strong, .Strong, .Strong]⟩ ∧
    (⟨[.Strong, .Strong, .Strong, .Strong]⟩ : AccentPattern) ≠
      AccentPattern.default_for_beats 4 := by
  refine ⟨by decide, by decide, by decide⟩

/-- C7 amended: an accent pattern whose length differs from the numerator
never raises an error; `with_accents` rejects it by substituting the default
pattern for the numerator (so its result always satisfies
`accents.len = numerator`), while `set_accents` rejects it by leaving the
time signature unchanged, which preserves the invariant
`accents.len = numerator` whenever it already held. -/
theorem accent_length_mismatch_never_errors :
    (∀ (numerator denominator : Nat) (p : AccentPattern) (ts : TimeSignature),
      TimeSignature.with_accents numerator denominator p = .ok ts →
      (p.len ≠ numerator → ts.accents = AccentPattern.default_for_beats numerator) ∧
      ts.accents.len = ts.numerator) ∧
    (∀ (ts : TimeSignature) (p : AccentPattern),
      p.len ≠ ts.numerator → ts.set_accents p = ts) ∧
    (∀ (ts : TimeSignature) (p : AccentPattern),
      ts.accents.len = ts.numerator →
      (ts.set_accents p).accents.len = (ts.set_accents p).numerator) := by
  refine ⟨?_, ?_, ?_⟩
  · intro numerator denominator p ts h
    unfold TimeSignature.with_accents at h
    split at h
    · exact absurd h (by simp)
    · by_cases hlen : p.len ≠ numerator
      · rw [if_pos hlen] at h
        cases h
        exact ⟨fun _ => rfl, default_for_beats_len numerator⟩
      · rw [if_neg hlen] at h
        cases h
        push_neg at hlen
        exact ⟨fun hc => absurd hlen hc, hlen⟩
  · intro ts p h
    unfold TimeSignature.set_accents
    rw [if_neg h]
  · intro ts p h
    unfold TimeSignature.set_accents
    by_cases hp : p.len = ts.numerator
    · rw [if_pos hp]
      exact hp
    · rw [if_neg hp]
      exact h

/-- C7 witness: a mismatched pattern leaves common time unchanged, and the
invariant instantiates on 4/4. -/
theorem accent_length_mismatch_witness :
    TimeSignature.set_accents TimeSignature.common ⟨[.Weak]⟩ = TimeSignature.common :=
  accent_length_mismatch_never_errors.2.1 TimeSignature.common ⟨[.Weak]⟩ (by decide)

/-- Closed form for the running-delta loop: each event's delta is its tick
minus the previous event's tick (the first event measures from `last`). -/
theorem eventDeltas_eq_zip (last : Nat) (evs : List NoteEvent) :
    eventDeltas last evs =
      (evs.zip (last :: evs.map (fun e => e.tick))).map (fun p => (p.1.tick - p.2, p.1)) := by
  induction evs generalizing last with
  | nil => rfl
  | cons e rest ih => simp [eventDeltas, ih e.tick]

/-- The event-writing loop is the concatenation of the per-event blocks —
variable-length delta followed by the status bytes — with a VLQ buffer
overflow panicking the whole loop. -/
theorem writeNoteEvents_eq_flatten (last : Nat) (evs : List NoteEvent) :
    writeNoteEvents last evs = (perEventBlocks (eventDeltas last evs)).map List.flatten := by
  induction evs generalizing last with
  | nil => rfl
  | cons e rest ih =>
    cases hd : write_var_length (e.tick - last) with
    | none => simp [writeNoteEvents, eventDeltas, perEventBlocks, hd]
    | some dbytes =>
      simp only [writeNoteEvents, eventDeltas, perEventBlocks, hd, ih e.tick]
      cases hpb : perEventBlocks (eventDeltas e.tick rest) with
      | none => rfl
      | some blocks => simp [List.append_assoc]

/-- C4: the exported track's note-event list holds, for every note, a
Note-On (`90 pitch velocity`) at its start tick and a Note-Off
(`80 pitch 00`) at its end tick (the sorted list is a permutation of the
generated on/off pairs); the list is pairwise ordered by tick with Note-Off
before Note-On at equal ticks; each written delta is
`max(0, tick - previous tick)` (the first event measuring from 0), and the
emitted bytes are exactly delta-prefixed event blocks in that order. -/
theorem midi_note_events_sorted_with_deltas :
    ∀ notes : List Note,
      (sortNoteEvents (noteEvents notes)).Perm (noteEvents notes) ∧
      (∀ n, n ∈ notes → noteOnEvent n ∈ sortNoteEvents (noteEvents notes) ∧
        noteOffEvent n ∈ sortNoteEvents (noteEvents notes)) ∧
      List.Pairwise NoteEvent.le (sortNoteEvents (noteEvents notes)) ∧
      eventDeltas 0 (sortNoteEvents (noteEvents notes)) =
        ((sortNoteEvents (noteEvents notes)).zip
            (0 :: (sortNoteEvents (noteEvents notes)).map (fun e => e.tick))).map
          (fun p => ((max 0 ((p.1.tick : Int) - (p.2 : Int))).toNat, p.1)) ∧
      writeNoteEvents 0 (sortNoteEvents (noteEvents notes)) =
        (perEventBlocks (eventDeltas 0 (sortNoteEvents (noteEvents notes)))).map
          List.flatten := by
  intro notes
  refine ⟨List.perm_insertionSort _ _, ?_, ?_, ?_, writeNoteEvents_eq_flatten 0 _⟩
  · intro n hn
    have hperm := List.perm_insertionSort NoteEvent.le (noteEvents notes)
    constructor
    · apply hperm.mem_iff.mpr
      exact List.mem_flatten.mpr ⟨[noteOnEvent n, noteOffEvent n],
        List.mem_map_of_mem _ hn, by simp⟩
    · apply hperm.mem_iff.mpr
      exact List.mem_flatten.mpr ⟨[noteOnEvent n, noteOffEvent n],
        List.mem_map_of_mem _ hn, by simp⟩
  · exact List.sorted_insertionSort NoteEvent.le (noteEvents notes)
  · rw [eventDeltas_eq_zip]
    have hfun : (fun (p : NoteEvent × Nat) => (p.1.tick - p.2, p.1)) =
        (fun (p : NoteEvent × Nat) => ((max 0 ((p.1.tick : Int) - (p.2 : Int))).toNat, p.1)) := by
      funext p
      have : p.1.tick - p.2 = (max 0 ((p.1.tick : Int) - (p.2 : Int))).toNat := by omega
      rw [this]
    rw [hfun]

/-- C4 witness: on a concrete two-note song the first note's Note-On event
occurs in the sorted event list. -/
theorem midi_note_events_witness :
    noteOnEvent (Note.new 60 0 480) ∈
      sortNoteEvents (noteEvents [Note.new 60 0 480, Note.new 64 480 480]) :=
  ((midi_note_events_sorted_with_deltas [Note.new 60 0 480, Note.new 64 480 480]).2.1
    (Note.new 60 0 480) (by simp)).1

/-- A note successfully parsed at a cursor position starts at that cursor. -/
theorem Note.parse_start_tick {s : String} {t : Nat} {n : Note}
    (h : Note.parse s t = some (.ok n)) : n.start_tick = t := by
  simp only [Note.parse] at h
  split at h
  · exact absurd h (by simp)
  · split at h
    · exact absurd h (by simp)
    · exact absurd h (by simp)
    · split at h
      · exact absurd h (by simp)
      · simp only [Option.some.injEq, Except.ok.injEq] at h
        subst h
        rfl

/-- The accumulator loop of `parse_melody` refines the cursor specification:
the final note list is the accumulator followed by the specified notes, and
errors are identical. -/
theorem parse_melody_go_spec (tokens : List String) (t : Nat) (acc : List Note) :
    parse_melody_go tokens t acc =
      (melodyCursorSpec tokens t).map (fun r => r.map (fun ns => acc ++ ns)) := by
  induction tokens generalizing t acc with
  | nil => simp [parse_melody_go, melodyCursorSpec, Except.map]
  | cons token rest ih =>
    rw [parse_melody_go, melodyCursorSpec]
    by_cases he : strIsEmpty token
    · rw [if_pos he, if_pos he]
      exact ih t acc
    · rw [if_neg he, if_neg he]
      by_cases hr : isRestToken token
      · rw [if_pos hr, if_pos hr]
        cases hd : restDuration token with
        | error e => simp [Except.map]
        | ok d => exact ih (t + d.ticks) acc
      · rw [if_neg hr, if_neg hr]
        cases hp : Note.parse token t with
        | none => rfl
        | some res =>
          cases res with
          | error e => simp [Except.map]
          | ok note =>
            have hst : note.start_tick = t := Note.parse_start_tick hp
            have het : note.end_tick = t + note.duration_ticks := by
              unfold Note.end_tick
              rw [hst]
            change parse_melody_go rest note.end_tick (acc ++ [note]) =
              Option.map (fun (r : MResult (List Note)) => r.map (fun ns => acc ++ ns))
                ((melodyCursorSpec rest (t + note.duration_ticks)).map
                  (fun r => r.map (fun ns => note :: ns)))
            rw [het, ih (t + note.duration_ticks) (acc ++ [note])]
            cases melodyCursorSpec rest (t + note.duration_ticks) with
            | none => rfl
            | some r =>
              cases r with
              | error e => simp [Except.map]
              | ok ns => simp [Except.map]

/-- C3 counterexample: the malformed token `X4q` makes `parse_melody` fail
with `InvalidPitch`, not with `ParseError` — the error variant depends on
which part of the token is malformed — and the token `C♯4q`, whose pitch
part uses a multi-byte accidental, makes `Pitch::parse` slice at a byte
index that is not a character boundary, so the program panics instead of
returning any error. -/
theorem parse_melody_error_not_always_parse_error :
    parse_melody "X4q" = some (.error (.InvalidPitch ("Unknown pitch class: X"))) ∧
    (parse_melody "X4q").map resultIsParseError = some false ∧
    parse_melody "C♯4q" = none := by
  exact ⟨by decide, by decide, by decide⟩

/-- C3 amended: `parse_melody` processes whitespace-separated tokens left to
right with a running tick cursor starting at 0 — rests advance the cursor
without emitting, notes are emitted at the cursor and advance it by their
duration, a malformed token aborts the whole melody with a `MozartError`
(`ParseError`, `InvalidPitch` or `InvalidDuration`, depending on the
malformation) and no partial result, and a note token whose pitch part
carries a multi-byte accidental panics the parser (no result at all); in
particular `"C4q D4q E4q"` yields notes at ticks 0, 480, 960 with pitches
60, 62, 64, while `"C♯4q"` panics. -/
theorem parse_melody_cursor_semantics :
    parse_melody "C4q D4q E4q" =
      some (.ok [⟨60, 0, 480, 100, 0⟩, ⟨62, 480, 480, 100, 0⟩, ⟨64, 960, 480, 100, 0⟩]) ∧
    parse_melody "C♯4q" = none ∧
    ∀ s : String, parse_melody s = melodyCursorSpec (split_whitespace s) 0 := by
  refine ⟨by decide, by decide, ?_⟩
  intro s
  rw [parse_melody, parse_melody_go_spec]
  cases hm : melodyCursorSpec (split_whitespace s) 0 with
  | none => rfl
  | some r =>
    cases r with
    | error e => rfl
    | ok ns => simp [Except.map]

/-- For every scale type, looking up an in-scale interval in the interval
list finds an index at most 6 whose entry is that interval (decided over the
nine concrete seven-element lists). -/
theorem intervals_findIdx_spec : ∀ (t : ScaleType) (iv : Fin 12),
    ((iv : Nat) ∈ t.intervals) →
    ((t.intervals.findIdx? (fun i => i == (iv : Nat))).map
      (fun idx => (decide (idx ≤ 6), t.intervals.getD idx 0))) =
      some (true, (iv : Nat)) := by decide

/-- Transposing the root by the ascending interval to a pitch class lands on
that pitch class. -/
theorem transpose_interval_to (a b : PitchClass) :
    a.transpose ((a.interval_to b : Nat) : Int) = b := by
  have ha := a.val.isLt
  have hb := b.val.isLt
  apply congrArg PitchClass.mk
  apply Fin.ext
  show ((((a.val.val : Int) +
      (((((b.val.val : Int) - (a.val.val : Int)) % 12).toNat : Nat) : Int)) % 12)).toNat =
    b.val.val
  omega

/-- The semitone value of a pitch's pitch class is its MIDI value mod 12. -/
theorem pitch_class_semitones_mod (m : Fin 128) :
    (Pitch.pitch_class ⟨m⟩).semitones = m.val % 12 := by
  show (m.val % 12) % 12 = m.val % 12
  omega

/-- Diatonic transposition by exactly 7 degrees of an in-scale pitch reduces
to `Pitch::new` at the same pitch class one octave up: the degree wraps back
to itself, `full_octaves` contributes 1 and the boundary correction 0. -/
theorem diatonic_seven_eq_new (root : Fin 12) (st : ScaleType) (m : Fin 128)
    (hc : (Scale.new ⟨root⟩ st).containsPC (Pitch.pitch_class ⟨m⟩) = true) :
    transpose_pitch_diatonic ⟨m⟩ (Scale.new ⟨root⟩ st) (Scale.new ⟨root⟩ st) 7 =
      Pitch.new (Pitch.pitch_class ⟨m⟩) (Pitch.octave ⟨m⟩ + 1) := by
  have hmem : (⟨root⟩ : PitchClass).interval_to (Pitch.pitch_class ⟨m⟩) ∈ st.intervals := by
    have h := hc
    unfold Scale.containsPC at h
    simpa [Scale.new] using h
  have hivlt : (⟨root⟩ : PitchClass).interval_to (Pitch.pitch_class ⟨m⟩) < 12 := by
    unfold PitchClass.interval_to
    omega
  have hspec := intervals_findIdx_spec st ⟨_, hivlt⟩ (by simpa using hmem)
  cases hidx : st.intervals.findIdx?
      (fun i => i == (⟨root⟩ : PitchClass).interval_to (Pitch.pitch_class ⟨m⟩)) with
  | none => rw [hidx] at hspec; simp at hspec
  | some idx =>
    rw [hidx] at hspec
    simp at hspec
    obtain ⟨hidx6, hgetd⟩ := hspec
    have hdeg : (Scale.new ⟨root⟩ st).degree_of (Pitch.pitch_class ⟨m⟩) = some (idx + 1) := by
      show (st.intervals.findIdx?
          (fun i => i == (⟨root⟩ : PitchClass).interval_to (Pitch.pitch_class ⟨m⟩))).map
        (fun pos => pos + 1) = some (idx + 1)
      rw [hidx]
      rfl
    have hdegree : (Scale.new ⟨root⟩ st).degree (idx + 1) = some (Pitch.pitch_class ⟨m⟩) := by
      unfold Scale.degree
      rw [if_neg (by omega)]
      simp only [Nat.add_sub_cancel, Scale.new]
      rw [List.getD_eq_getElem?_getD, hgetd]
      exact congrArg some (transpose_interval_to _ _)
    have hnd : Int.toNat ((((idx + 1 : Nat) : Int) + 7 - 1) % 7 + 1) = idx + 1 := by omega
    simp only [transpose_pitch_diatonic, hdeg, hnd, hdegree]
    norm_num


/-- `Pitch::new` at the same pitch class one octave up yields `midi + 12`,
failing exactly when that exceeds 127. -/
theorem pitch_new_up_octave (m : Fin 128) :
    resultMidi (Pitch.new (Pitch.pitch_class ⟨m⟩) (Pitch.octave ⟨m⟩ + 1)) =
      (if m.val + 12 ≤ 127 then some (m.val + 12) else none) := by
  have hmid : (Pitch.octave ⟨m⟩ + 1 + 1) * 12 + ((Pitch.pitch_class ⟨m⟩).semitones : Int) =
      (m.val : Int) + 12 := by
    unfold Pitch.octave
    rw [pitch_class_semitones_mod]
    push_cast
    omega
  simp only [Pitch.new, hmid]
  by_cases h : m.val + 12 ≤ 127
  · rw [dif_neg (by omega), if_pos h]
    unfold resultMidi
    simp
    omega
  · rw [dif_pos (by omega), if_neg h]
    rfl

/-- Chromatic transposition by +12 yields `midi + 12`, failing exactly when
that exceeds 127. -/
theorem pitch_transpose_12 (m : Fin 128) :
    resultMidi (Pitch.transpose ⟨m⟩ 12) =
      (if m.val + 12 ≤ 127 then some (m.val + 12) else none) := by
  simp only [Pitch.transpose]
  by_cases h : m.val + 12 ≤ 127
  · rw [dif_neg (by omega), if_pos h]
    unfold resultMidi
    simp
    omega
  · rw [dif_pos (by omega), if_neg h]
    rfl

/-- C2: for every scale and every pitch whose pitch class is in that scale,
transposing diatonically by exactly 7 degrees within the scale succeeds with
the MIDI value raised by 12 exactly when chromatic transposition by +12
succeeds, and both fail when the result would exceed MIDI 127 (the two paths
report different error messages, so the results are compared through the
`resultMidi` projection, matching the claim's gloss). -/
theorem diatonic_seven_degrees_equals_chromatic_octave :
    ∀ (root : Fin 12) (st : ScaleType) (m : Fin 128),
      (Scale.new ⟨root⟩ st).containsPC (Pitch.pitch_class ⟨m⟩) = true →
      resultMidi (transpose_pitch_diatonic ⟨m⟩ (Scale.new ⟨root⟩ st) (Scale.new ⟨root⟩ st) 7) =
        resultMidi (Pitch.transpose ⟨m⟩ 12) ∧
      resultMidi (Pitch.transpose ⟨m⟩ 12) =
        (if m.val + 12 ≤ 127 then some (m.val + 12) else none) := by
  intro root st m hc
  rw [diatonic_seven_eq_new root st m hc, pitch_new_up_octave, pitch_transpose_12]
  exact ⟨rfl, rfl⟩

/-- C2 witness: A4 in A natural minor moved by 7 degrees agrees with the
chromatic octave. -/
theorem diatonic_seven_degrees_equals_chromatic_octave_witness :
    (Scale.new ⟨9⟩ .NaturalMinor).containsPC (Pitch.pitch_class ⟨69⟩) = true ∧
    resultMidi (transpose_pitch_diatonic ⟨69⟩ (Scale.new ⟨9⟩ .NaturalMinor)
        (Scale.new ⟨9⟩ .NaturalMinor) 7) = resultMidi (Pitch.transpose ⟨69⟩ 12) :=
  ⟨by decide,
    (diatonic_seven_degrees_equals_chromatic_octave 9 .NaturalMinor 69 (by decide)).1⟩


end Mozart
